import Mathlib

/-!
Shallow embedding of collectd's `src/statsd.c` (the statsd plugin): the
metric store, the per-kind aggregation handlers, the line parser, and the
read/flush cycle.  C strings are modelled as `List Char`, the AVL tree
`metrics_tree` (comparator `strcasecmp`) as an association list looked up
case-insensitively, the member set of a set metric (comparator `strcmp`)
as a duplicate-free list, `int64_t` accumulators as `Int`, and the
`double` (`gauge_t`) arithmetic of sample rates and timer averages as
exact rationals.
-/

set_option autoImplicit false

namespace Statsd

/-- The four statsd metric kinds, `enum metric_type_e`. -/
inductive MetricType where
  | counter
  | timer
  | gauge
  | set
deriving DecidableEq, Repr

/-- `struct statsd_metric_s`: kind, 64-bit accumulator, member set (used
only by set metrics; the `NULL` tree is modelled as the empty list) and
`updates_num`. -/
structure Metric where
  type : MetricType
  value : Int
  set : List (List Char)
  updatesNum : Nat
deriving DecidableEq, Repr

/-- The global `metrics_tree`, modelled as an association list from key to
record.  Newly inserted entries are prepended; lookups scan for the first
case-insensitive match, mirroring the `strcasecmp` comparator. -/
abbrev Store := List (List Char × Metric)

/-- `strcasecmp s t == 0`: equality after mapping both strings to lower
case. -/
def lowerEq (a b : List Char) : Bool :=
  a.map Char.toLower == b.map Char.toLower

/-- `c_avl_get` on `metrics_tree`: first entry whose key matches
case-insensitively. -/
def avlGet (t : Store) (k : List Char) : Option Metric :=
  match t with
  | [] => none
  | (k', m) :: rest => if lowerEq k' k then some m else avlGet rest k

/-- In-place mutation of the record found by `c_avl_get`: apply `f` to the
first case-insensitive match, leaving the stored key spelling alone. -/
def avlUpdate (t : Store) (k : List Char) (f : Metric → Metric) : Store :=
  match t with
  | [] => []
  | (k', m) :: rest =>
    if lowerEq k' k then (k', f m) :: rest else (k', m) :: avlUpdate rest k f

/-- `statsd_metric_set_unsafe`: overwrite the accumulator of an existing
record (bumping `updates_num`), or insert a fresh record with
`updates_num = 1`. -/
def statsd_metric_set_nolock (t : Store) (name : List Char) (value : Int)
    (type : MetricType) : Store :=
  match avlGet t name with
  | some _ =>
    avlUpdate t name fun m =>
      { m with value := value, updatesNum := m.updatesNum + 1 }
  | none => (name, { type := type, value := value, set := [], updatesNum := 1 }) :: t

/-- `statsd_metric_set`: the locked wrapper (locking is a no-op in this
sequential model). -/
def statsd_metric_set (t : Store) (name : List Char) (value : Int)
    (type : MetricType) : Store :=
  statsd_metric_set_nolock t name value type

/-- `statsd_metric_add`: add `delta` to an existing record's accumulator
(bumping `updates_num`), or fall back to `statsd_metric_set_unsafe` to
create the record. -/
def statsd_metric_add (t : Store) (name : List Char) (delta : Int)
    (type : MetricType) : Store :=
  match avlGet t name with
  | some _ =>
    avlUpdate t name fun m =>
      { m with value := m.value + delta, updatesNum := m.updatesNum + 1 }
  | none => statsd_metric_set_nolock t name delta type

/-- `strchr`: split `s` at the first occurrence of `c`, returning the parts
before and after it. -/
def strchrSplit (s : List Char) (c : Char) : Option (List Char × List Char) :=
  match s with
  | [] => none
  | x :: rest =>
    if x = c then some ([], rest)
    else (strchrSplit rest c).map fun p => (x :: p.1, p.2)

/-- `strrchr`: split `s` at the last occurrence of `c`. -/
def strrchrSplit (s : List Char) (c : Char) : Option (List Char × List Char) :=
  match strchrSplit s.reverse c with
  | none => none
  | some (a, b) => some (b.reverse, a.reverse)

/-- Numeric value of a digit string, most significant first. -/
def digitsVal (s : List Char) : Nat :=
  s.foldl (fun a c => 10 * a + (c.toNat - Char.toNat '0')) 0

/-- Modelled from the spec: the decimal-digit core of collectd's
`parse_value` (the function lives in `common.c`, which is not part of this
repository snapshot).  A non-empty all-digit string parses to its value;
anything else is a failure. -/
def parseDigits (s : List Char) : Option Nat :=
  if s ≠ [] ∧ s.all Char.isDigit = true then some (digitsVal s) else none

/-- Modelled from the spec: `parse_value` with `DS_TYPE_DERIVE` — a signed
decimal integer (optional leading `+`/`-`), rejecting empty and non-numeric
input. -/
def parseDerive (s : List Char) : Option Int :=
  match s with
  | [] => none
  | c :: rest =>
    if c = '+' then (parseDigits rest).map fun k => (k : Int)
    else if c = '-' then (parseDigits rest).map fun k => -(k : Int)
    else (parseDigits (c :: rest)).map fun k => (k : Int)

/-- Modelled from the spec: an unsigned decimal with an optional fractional
part, as an exact rational. -/
def parseDecimalCore (u : List Char) : Option ℚ :=
  match strchrSplit u '.' with
  | none => (parseDigits u).map fun k => (k : ℚ)
  | some (ip, fp) =>
    match parseDigits ip with
    | none => none
    | some k =>
      if fp.all Char.isDigit = true then
        some ((k : ℚ) + (digitsVal fp : ℚ) / ((10 : ℚ) ^ fp.length))
      else none

/-- Modelled from the spec: `parse_value` with `DS_TYPE_GAUGE`, used only
for the sampling rate — a signed decimal number, possibly fractional,
modelled as an exact rational (a finite decimal literal is never
NaN/infinite, so the `isfinite` guard of the C code is vacuous here). -/
def parseGaugeRat (s : List Char) : Option ℚ :=
  match s with
  | [] => parseDecimalCore []
  | c :: rest =>
    if c = '+' then parseDecimalCore rest
    else if c = '-' then (parseDecimalCore rest).map Neg.neg
    else parseDecimalCore (c :: rest)

/-- Truncation toward zero of a rational, the `(int64_t)` cast applied to
the `double` quotient in `statsd_handle_counter`. -/
def ratTrunc (q : ℚ) : Int :=
  if 0 ≤ q then ⌊q⌋ else ⌈q⌉

/-- The validation and delta computation of `statsd_handle_counter`
(lines 167-192): the optional `extra` must start with `@`; the rate must
parse and lie in `(0, 1]`; the raw value must parse as an integer `≥ 1`;
the applied delta is the raw value divided by the rate, truncated toward
zero.  `none` is the `-1`/error return. -/
def counterDelta (value_str : List Char) (extra : Option (List Char)) : Option Int :=
  match extra with
  | some [] => none
  | some (c :: rate_str) =>
    if c ≠ '@' then none
    else
      match parseGaugeRat rate_str with
      | none => none
      | some scale =>
        if ¬(0 < scale ∧ scale ≤ 1) then none
        else
          match parseDerive value_str with
          | none => none
          | some v =>
            if v < 1 then none else some (ratTrunc ((v : ℚ) / scale))
  | none =>
    match parseDerive value_str with
    | none => none
    | some v => if v < 1 then none else some (ratTrunc ((v : ℚ) / 1))

/-- `statsd_handle_counter`: on successful validation, add the
rate-corrected delta under key `"c:" ++ name`. -/
def statsd_handle_counter (t : Store) (name value_str : List Char)
    (extra : Option (List Char)) : Option Store :=
  (counterDelta value_str extra).map fun delta =>
    statsd_metric_add t ('c' :: ':' :: name) delta .counter

/-- `statsd_handle_gauge`: parse the value; a leading `+`/`-` on the value
text selects the delta form (`statsd_metric_add`), otherwise the absolute
form (`statsd_metric_set`).  Key `"g:" ++ name`. -/
def statsd_handle_gauge (t : Store) (name value_str : List Char) : Option Store :=
  (parseDerive value_str).map fun v =>
    if value_str.head? = some '+' ∨ value_str.head? = some '-' then
      statsd_metric_add t ('g' :: ':' :: name) v .gauge
    else
      statsd_metric_set t ('g' :: ':' :: name) v .gauge

/-- `statsd_handle_timer`: parse the value and add it under key
`"t:" ++ name`. -/
def statsd_handle_timer (t : Store) (name value_str : List Char) : Option Store :=
  (parseDerive value_str).map fun v =>
    statsd_metric_add t ('t' :: ':' :: name) v .timer

/-- `statsd_handle_set`: create the record under key `"s:" ++ key_orig` if
absent (with `updates_num = 0`, from `calloc`), insert the member string
into the record's set unless already present (comparator `strcmp`, i.e.
exact equality), and bump `updates_num` regardless.  Allocation failures
of the C code do not arise in this model, so the result is always `some`. -/
def statsd_handle_set (t : Store) (key_orig name_orig : List Char) : Option Store :=
  let key := 's' :: ':' :: key_orig
  let t1 :=
    match avlGet t key with
    | some _ => t
    | none => (key, { type := .set, value := 0, set := [], updatesNum := 0 }) :: t
  some (avlUpdate t1 key fun m =>
    { m with
      set := if m.set.any (fun x => x == name_orig) then m.set else name_orig :: m.set,
      updatesNum := m.updatesNum + 1 })

/-- The kind-dispatch tail of `statsd_parse_line` (lines 349-363), applied
once the buffer has been cut into name, value, type and optional extra
part: `"c"` goes to the counter handler (which may consume `extra`); any
other type with an `extra` present fails; `"g"`, `"ms"`, `"s"` dispatch to
their handlers; anything else fails. -/
def statsd_dispatch (t : Store) (name value : List Char) (type_ : List Char)
    (extra : Option (List Char)) : Option Store :=
  if type_ == ['c'] then statsd_handle_counter t name value extra
  else if extra.isSome then none
  else if type_ == ['g'] then statsd_handle_gauge t name value
  else if type_ == ['m', 's'] then statsd_handle_timer t name value
  else if type_ == ['s'] then statsd_handle_set t name value
  else none

/-- `statsd_parse_line`: cut at the first `|` (fail if absent), then at the
last `:` of the part before it (fail if absent), then split the remainder
at its first `|` into type and optional extra, and dispatch. -/
def statsd_parse_line (t : Store) (buffer : List Char) : Option Store :=
  match strchrSplit buffer '|' with
  | none => none
  | some (pre, rest) =>
    match strrchrSplit pre ':' with
    | none => none
    | some (name, value) =>
      match strchrSplit rest '|' with
      | none => statsd_dispatch t name value rest none
      | some (ty, ex) => statsd_dispatch t name value ty (some ex)

/-- Is `c` one of the `strtok_r` separators `"\r\n"`? -/
def isLineSep (c : Char) : Bool :=
  c == '\r' || c == '\n'

/-- Worker for `splitLines`: accumulates the current token (reversed). -/
def splitLinesAux : List Char → List Char → List (List Char)
  | [], acc => if acc.isEmpty then [] else [acc.reverse]
  | c :: rest, acc =>
    if isLineSep c then
      if acc.isEmpty then splitLinesAux rest []
      else acc.reverse :: splitLinesAux rest []
    else splitLinesAux rest (c :: acc)

/-- The `strtok_r (buffer, "\r\n", ...)` loop of `statsd_parse_buffer`:
maximal runs of non-separator characters, empty tokens skipped. -/
def splitLines (s : List Char) : List (List Char) :=
  splitLinesAux s []

/-- One iteration of the `statsd_parse_buffer` loop: a line that fails to
parse is logged and the store is left as it was. -/
def applyLine (t : Store) (line : List Char) : Store :=
  match statsd_parse_line t line with
  | some t' => t'
  | none => t

/-- `statsd_parse_buffer`: split the datagram on CR/LF and apply each line
independently. -/
def statsd_parse_buffer (t : Store) (buffer : List Char) : Store :=
  (splitLines buffer).foldl applyLine t

/-- The four `DeleteCounters`/`DeleteTimers`/`DeleteGauges`/`DeleteSets`
configuration switches. -/
structure Config where
  deleteCounters : Bool
  deleteTimers : Bool
  deleteGauges : Bool
  deleteSets : Bool
deriving DecidableEq, Repr

/-- The eviction switch that applies to a metric kind. -/
def deleteEnabled (cfg : Config) : MetricType → Bool
  | .counter => cfg.deleteCounters
  | .timer => cfg.deleteTimers
  | .gauge => cfg.deleteGauges
  | .set => cfg.deleteSets

/-- The eviction test of `statsd_read` (lines 699-703), on the pre-reset
`updates_num`. -/
def evict (cfg : Config) (m : Metric) : Bool :=
  m.updatesNum == 0 && deleteEnabled cfg m.type

/-- The emitted value: counters dispatch a `derive`, the other kinds a
`gauge`, where `nan` is the NAN sentinel of the C code. -/
inductive GaugeOut where
  | num (q : ℚ)
  | nan
deriving DecidableEq, Repr

/-- A value handed to `plugin_dispatch_values`. -/
inductive Emitted where
  | derive (v : Int)
  | gauge (g : GaugeOut)
deriving DecidableEq, Repr

/-- The value computation of `statsd_metric_submit_unsafe` (lines
639-657): gauges emit the raw accumulator; timers emit
`value / updates_num` or NAN when `updates_num == 0`; sets emit the
cardinality of the member set; counters emit the raw accumulator as a
derive. -/
def statsd_metric_value (m : Metric) : Emitted :=
  match m.type with
  | .gauge => .gauge (.num (m.value : ℚ))
  | .timer =>
    if m.updatesNum = 0 then .gauge .nan
    else .gauge (.num ((m.value : ℚ) / (m.updatesNum : ℚ)))
  | .set => .gauge (.num ((m.set.length : ℚ)))
  | .counter => .derive m.value

/-- `statsd_metric_clear_set_unsafe`: drain the member set of a set
metric; other kinds are left alone (the C code returns `EINVAL` without
touching them). -/
def statsd_metric_clear_set_nolock (m : Metric) : Metric :=
  if m.type = .set then { m with set := [] } else m

/-- `statsd_read`, the flush cycle: for each record, either evict it
(pre-reset `updates_num == 0` and the kind's delete switch on) or emit its
value under the key with the two-character `"x:"` prefix stripped and then
reset it (`updates_num := 0`; member set cleared for sets).  Returns the
emissions in store order together with the post-flush store. -/
def statsd_read (cfg : Config) (t : Store) : List (List Char × Emitted) × Store :=
  (t.filterMap fun p =>
     if evict cfg p.2 then none
     else some (p.1.drop 2, statsd_metric_value p.2),
   t.filterMap fun p =>
     if evict cfg p.2 then none
     else some (p.1, statsd_metric_clear_set_nolock { p.2 with updatesNum := 0 }))

/-- Store well-formedness: the keys in `metrics_tree` are pairwise distinct
under the case-insensitive comparator (guaranteed by `c_avl_insert`, which
refuses duplicates). -/
def StoreWF (t : Store) : Prop :=
  t.Pairwise fun a b => lowerEq a.1 b.1 = false

/-- The record stored under (a case-insensitive match of) `k`, if any, has
received at least one update. -/
def CountOk (t : Store) (k : List Char) : Prop :=
  ∀ m, avlGet t k = some m → 1 ≤ m.updatesNum

end Statsd

namespace Statsd

theorem lowerEq_refl (k : List Char) : lowerEq k k = true := by
  simp [lowerEq]

theorem lowerEq_eq (a b : List Char) (h : lowerEq a b = true) :
    a.map Char.toLower = b.map Char.toLower := by
  simpa [lowerEq] using h

theorem lowerEq_congr_right (k k' : List Char) (h : lowerEq k k' = true) (a : List Char) :
    lowerEq a k = lowerEq a k' := by
  simp [lowerEq, lowerEq_eq k k' h]

theorem lowerEq_false_of_true_of_false (a b c : List Char)
    (hab : lowerEq a b = true) (hac : lowerEq a c = false) : lowerEq b c = false := by
  have h1 := lowerEq_eq a b hab
  simp only [lowerEq] at hac ⊢
  rw [← h1]
  exact hac

@[simp] theorem avlGet_nil (k : List Char) : avlGet [] k = none := rfl

@[simp] theorem avlGet_cons (k' : List Char) (m : Metric) (t : Store) (k : List Char) :
    avlGet ((k', m) :: t) k = if lowerEq k' k then some m else avlGet t k := rfl

@[simp] theorem avlUpdate_nil (k : List Char) (f : Metric → Metric) :
    avlUpdate [] k f = [] := rfl

@[simp] theorem avlUpdate_cons (k' : List Char) (m : Metric) (t : Store) (k : List Char)
    (f : Metric → Metric) :
    avlUpdate ((k', m) :: t) k f =
      if lowerEq k' k then (k', f m) :: t else (k', m) :: avlUpdate t k f := rfl

theorem avlGet_avlUpdate_self (t : Store) (k : List Char) (f : Metric → Metric) :
    avlGet (avlUpdate t k f) k = (avlGet t k).map f := by
  induction t with
  | nil => rfl
  | cons p rest ih =>
    obtain ⟨k', m⟩ := p
    by_cases h : lowerEq k' k
    · simp [h]
    · simp [h, ih]

theorem avlUpdate_map_fst (t : Store) (k : List Char) (f : Metric → Metric) :
    (avlUpdate t k f).map Prod.fst = t.map Prod.fst := by
  induction t with
  | nil => rfl
  | cons p rest ih =>
    obtain ⟨k', m⟩ := p
    by_cases h : lowerEq k' k <;> simp [h, ih]

theorem statsd_metric_add_of_none (t : Store) (k : List Char) (d : Int) (ty : MetricType)
    (h : avlGet t k = none) :
    statsd_metric_add t k d ty = (k, ⟨ty, d, [], 1⟩) :: t := by
  simp [statsd_metric_add, statsd_metric_set_nolock, h]

theorem statsd_metric_add_of_some (t : Store) (k : List Char) (d : Int) (ty : MetricType)
    (m : Metric) (h : avlGet t k = some m) :
    statsd_metric_add t k d ty =
      avlUpdate t k fun m => { m with value := m.value + d, updatesNum := m.updatesNum + 1 } := by
  simp [statsd_metric_add, h]

theorem statsd_metric_set_of_none (t : Store) (k : List Char) (v : Int) (ty : MetricType)
    (h : avlGet t k = none) :
    statsd_metric_set t k v ty = (k, ⟨ty, v, [], 1⟩) :: t := by
  simp [statsd_metric_set, statsd_metric_set_nolock, h]

theorem statsd_metric_set_of_some (t : Store) (k : List Char) (v : Int) (ty : MetricType)
    (m : Metric) (h : avlGet t k = some m) :
    statsd_metric_set t k v ty =
      avlUpdate t k fun m => { m with value := v, updatesNum := m.updatesNum + 1 } := by
  simp [statsd_metric_set, statsd_metric_set_nolock, h]

theorem avlGet_metric_add_self (t : Store) (k : List Char) (d : Int) (ty : MetricType) :
    avlGet (statsd_metric_add t k d ty) k =
      match avlGet t k with
      | some m => some { m with value := m.value + d, updatesNum := m.updatesNum + 1 }
      | none => some ⟨ty, d, [], 1⟩ := by
  cases h : avlGet t k with
  | some m =>
    rw [statsd_metric_add_of_some t k d ty m h, avlGet_avlUpdate_self, h]
    rfl
  | none =>
    rw [statsd_metric_add_of_none t k d ty h]
    simp [lowerEq_refl]

theorem avlGet_metric_set_self (t : Store) (k : List Char) (v : Int) (ty : MetricType) :
    avlGet (statsd_metric_set t k v ty) k =
      match avlGet t k with
      | some m => some { m with value := v, updatesNum := m.updatesNum + 1 }
      | none => some ⟨ty, v, [], 1⟩ := by
  cases h : avlGet t k with
  | some m =>
    rw [statsd_metric_set_of_some t k v ty m h, avlGet_avlUpdate_self, h]
    rfl
  | none =>
    rw [statsd_metric_set_of_none t k v ty h]
    simp [lowerEq_refl]

theorem addFold_single (ds : List Int) (k : List Char) (ty : MetricType) (r : Metric) :
    List.foldl (fun s d => statsd_metric_add s k d ty) [(k, r)] ds =
      [(k, ⟨r.type, r.value + ds.sum, r.set, r.updatesNum + ds.length⟩)] := by
  induction ds generalizing r with
  | nil => simp
  | cons d ds ih =>
    have hget : avlGet [(k, r)] k = some r := by simp [lowerEq_refl]
    rw [List.foldl_cons, statsd_metric_add_of_some _ _ _ _ r hget]
    simp only [avlUpdate_cons, lowerEq_refl, if_pos, avlUpdate_nil]
    rw [ih]
    simp [add_assoc, add_comm, add_left_comm]

theorem addFold_of_ne_nil (ds : List Int) (k : List Char) (ty : MetricType) (h : ds ≠ []) :
    List.foldl (fun s d => statsd_metric_add s k d ty) [] ds =
      [(k, ⟨ty, ds.sum, [], ds.length⟩)] := by
  obtain ⟨d, ds', rfl⟩ := List.exists_cons_of_ne_nil h
  rw [List.foldl_cons, statsd_metric_add_of_none _ _ _ _ (avlGet_nil k), addFold_single]
  simp [add_comm]

end Statsd

namespace Statsd

theorem counterFold_eq (n : List Char) (samples : List ((List Char × Option (List Char)) × Int))
    (hs : ∀ p ∈ samples, counterDelta p.1.1 p.1.2 = some p.2) (t : Store) :
    samples.foldl (fun s p => (statsd_handle_counter s n p.1.1 p.1.2).getD s) t =
      (samples.map (fun p => p.2)).foldl
        (fun s d => statsd_metric_add s ('c' :: ':' :: n) d .counter) t := by
  induction samples generalizing t with
  | nil => rfl
  | cons p ps ih =>
    have hp := hs p (by simp)
    rw [List.foldl_cons, List.map_cons, List.foldl_cons]
    rw [show (statsd_handle_counter t n p.1.1 p.1.2).getD t =
        statsd_metric_add t ('c' :: ':' :: n) p.2 .counter by
      simp [statsd_handle_counter, hp]]
    exact ih (fun q hq => hs q (by simp [hq])) _

theorem timerFold_eq (n : List Char) (samples : List (List Char × Int))
    (hs : ∀ p ∈ samples, parseDerive p.1 = some p.2) (t : Store) :
    samples.foldl (fun s p => (statsd_handle_timer s n p.1).getD s) t =
      (samples.map (fun p => p.2)).foldl
        (fun s d => statsd_metric_add s ('t' :: ':' :: n) d .timer) t := by
  induction samples generalizing t with
  | nil => rfl
  | cons p ps ih =>
    have hp := hs p (by simp)
    rw [List.foldl_cons, List.map_cons, List.foldl_cons]
    rw [show (statsd_handle_timer t n p.1).getD t =
        statsd_metric_add t ('t' :: ':' :: n) p.2 .timer by
      simp [statsd_handle_timer, hp]]
    exact ih (fun q hq => hs q (by simp [hq])) _

/-- Claim C1: for every sequence of valid counter lines for the same name
applied since the store was created (empty store), the value flushed for
that counter equals the sum of the rate-adjusted deltas, emitted as a
derive under the name with the `"c:"` prefix stripped, and the record's
`updates_num` is 0 immediately after the flush. -/
theorem claim_c1 (cfg : Config) (n : List Char)
    (samples : List ((List Char × Option (List Char)) × Int))
    (hne : samples ≠ [])
    (hs : ∀ p ∈ samples, counterDelta p.1.1 p.1.2 = some p.2) :
    statsd_read cfg
        (samples.foldl (fun s p => (statsd_handle_counter s n p.1.1 p.1.2).getD s) []) =
      ([(n, .derive (samples.map (fun p => p.2)).sum)],
       [(('c' :: ':' :: n), ⟨.counter, (samples.map (fun p => p.2)).sum, [], 0⟩)]) := by
  rw [counterFold_eq n samples hs []]
  have hmne : samples.map (fun p => p.2) ≠ [] := by simpa using hne
  rw [addFold_of_ne_nil _ _ _ hmne]
  have hlen : (samples.map (fun p => p.2)).length ≠ 0 := by
    simpa [List.length_eq_zero] using hmne
  have hlen2 : samples.length ≠ 0 := by simpa using hlen
  simp [statsd_read, evict, hlen2, statsd_metric_value, statsd_metric_clear_set_nolock]

/-- Witness for C1: two counter increments of 1 and 2 flush as derive 3
with `updates_num` reset to 0. -/
theorem claim_c1_witness :
    statsd_read ⟨true, true, true, true⟩
        ([(((['1'] : List Char), (none : Option (List Char))), (1 : Int)),
          ((['2'], none), 2)].foldl
          (fun s p => (statsd_handle_counter s ['n'] p.1.1 p.1.2).getD s) []) =
      ([(['n'], .derive 3)], [(('c' :: ':' :: ['n']), ⟨.counter, 3, [], 0⟩)]) := by
  have h := claim_c1 ⟨true, true, true, true⟩ ['n']
    [(((['1'] : List Char), (none : Option (List Char))), (1 : Int)), ((['2'], none), 2)]
    (by simp)
    (by
      intro p hp
      simp only [List.mem_cons, List.mem_singleton] at hp
      rcases hp with h1 | h1 | h1
      · subst h1; simp [counterDelta, parseDerive, parseDigits, digitsVal, ratTrunc]
      · subst h1; simp [counterDelta, parseDerive, parseDigits, digitsVal, ratTrunc]
      · cases h1)
  simpa using h

/-- Claim C2: for every timer record at flush time the emitted value is the
arithmetic mean `accumulator / sample_count` of the samples received since
the last flush when `sample_count > 0`, and the NAN "no data" sentinel
(not zero) when `sample_count = 0`. -/
theorem claim_c2 (cfg cfg2 : Config) (hcfg2 : cfg2.deleteTimers = false) (n : List Char)
    (samples : List (List Char × Int)) (hne : samples ≠ [])
    (hs : ∀ p ∈ samples, parseDerive p.1 = some p.2) :
    statsd_read cfg (samples.foldl (fun s p => (statsd_handle_timer s n p.1).getD s) []) =
      ([(n, .gauge (.num ((((samples.map (fun p => p.2)).sum : Int) : ℚ) / (samples.length : ℚ))))],
       [(('t' :: ':' :: n), ⟨.timer, (samples.map (fun p => p.2)).sum, [], 0⟩)]) ∧
    (statsd_read cfg2 [(('t' :: ':' :: n), ⟨.timer, (samples.map (fun p => p.2)).sum, [], 0⟩)]).1 =
      [(n, .gauge .nan)] := by
  constructor
  · rw [timerFold_eq n samples hs []]
    have hmne : samples.map (fun p => p.2) ≠ [] := by simpa using hne
    rw [addFold_of_ne_nil _ _ _ hmne]
    have hlen : (samples.map (fun p => p.2)).length ≠ 0 := by
      simpa [List.length_eq_zero] using hmne
    have hlen2 : samples.length ≠ 0 := by simpa using hlen
    simp [statsd_read, evict, hlen2, statsd_metric_value, statsd_metric_clear_set_nolock,
      Int.cast_list_sum]
  · simp [statsd_read, evict, hcfg2, deleteEnabled, statsd_metric_value]

/-- Witness for C2: one timer sample of 250 flushes as mean 250; a second
flush of the then-idle record (timer eviction off) emits the NAN
sentinel. -/
theorem claim_c2_witness :
    (statsd_read ⟨false, false, false, false⟩
        ([((['2', '5', '0'] : List Char), (250 : Int))].foldl
          (fun s p => (statsd_handle_timer s ['n'] p.1).getD s) []) =
      ([(['n'], .gauge (.num 250))],
       [(('t' :: ':' :: ['n']), ⟨.timer, 250, [], 0⟩)])) ∧
    (statsd_read ⟨false, false, false, false⟩
        [(('t' :: ':' :: ['n']), ⟨.timer, 250, [], 0⟩)]).1 = [(['n'], .gauge .nan)] := by
  have h := claim_c2 ⟨false, false, false, false⟩ ⟨false, false, false, false⟩ rfl ['n']
    [((['2', '5', '0'] : List Char), (250 : Int))]
    (by simp)
    (by
      intro p hp
      simp only [List.mem_singleton] at hp
      subst hp
      simp [parseDerive, parseDigits, digitsVal])
  constructor
  · have h1 := h.1
    simpa using h1
  · have h2 := h.2
    simpa using h2

end Statsd

namespace Statsd

theorem handle_set_of_some (t : Store) (n v : List Char) (m : Metric)
    (h : avlGet t ('s' :: ':' :: n) = some m) :
    statsd_handle_set t n v = some (avlUpdate t ('s' :: ':' :: n) fun m =>
      { m with
        set := if m.set.any (fun x => x == v) then m.set else v :: m.set,
        updatesNum := m.updatesNum + 1 }) := by
  simp [statsd_handle_set, h]

theorem handle_set_of_none (t : Store) (n v : List Char)
    (h : avlGet t ('s' :: ':' :: n) = none) :
    statsd_handle_set t n v = some ((('s' :: ':' :: n), ⟨.set, 0, [v], 1⟩) :: t) := by
  simp [statsd_handle_set, h, lowerEq_refl]

theorem setFold_single (n : List Char) (ms : List (List Char)) :
    ∀ (S : List (List Char)) (u : Nat),
    ms.foldl (fun s v => (statsd_handle_set s n v).getD s)
        [(('s' :: ':' :: n), ⟨.set, 0, S, u⟩)] =
      [(('s' :: ':' :: n),
        ⟨.set, 0, ms.foldl (fun S v => if S.any (fun x => x == v) then S else v :: S) S,
          u + ms.length⟩)] := by
  induction ms with
  | nil => intro S u; simp
  | cons v ms ih =>
    intro S u
    have hget : avlGet [(('s' :: ':' :: n), (⟨.set, 0, S, u⟩ : Metric))] ('s' :: ':' :: n) =
        some ⟨.set, 0, S, u⟩ := by simp [lowerEq_refl]
    rw [List.foldl_cons, handle_set_of_some _ _ _ _ hget]
    simp only [Option.getD_some, avlUpdate_cons, lowerEq_refl, if_pos, avlUpdate_nil]
    rw [ih]
    simp only [List.foldl_cons, List.length_cons]
    have harith : u + 1 + ms.length = u + (ms.length + 1) := by omega
    rw [harith]

theorem memFold_mem (ms : List (List Char)) :
    ∀ (S : List (List Char)) (x : List Char),
    x ∈ ms.foldl (fun S v => if S.any (fun x => x == v) then S else v :: S) S ↔
      x ∈ S ∨ x ∈ ms := by
  induction ms with
  | nil => intro S x; simp
  | cons v ms ih =>
    intro S x
    rw [List.foldl_cons]
    by_cases hv : S.any (fun x => x == v)
    · rw [if_pos hv, ih]
      have hmem : v ∈ S := by
        rcases List.any_eq_true.mp hv with ⟨y, hy, hxy⟩
        rcases eq_of_beq hxy with rfl
        exact hy
      constructor
      · rintro (h | h)
        · exact Or.inl h
        · exact Or.inr (List.mem_cons_of_mem _ h)
      · rintro (h | h)
        · exact Or.inl h
        · rcases List.mem_cons.mp h with rfl | h
          · exact Or.inl hmem
          · exact Or.inr h
    · rw [if_neg hv, ih]
      simp only [List.mem_cons]
      tauto
  
theorem memFold_nodup (ms : List (List Char)) :
    ∀ (S : List (List Char)), S.Nodup →
    (ms.foldl (fun S v => if S.any (fun x => x == v) then S else v :: S) S).Nodup := by
  induction ms with
  | nil => intro S h; simpa using h
  | cons v ms ih =>
    intro S hS
    rw [List.foldl_cons]
    by_cases hv : S.any (fun x => x == v)
    · rw [if_pos hv]; exact ih S hS
    · rw [if_neg hv]
      refine ih _ (List.nodup_cons.mpr ⟨?_, hS⟩)
      intro hmem
      exact hv (List.any_eq_true.mpr ⟨v, hmem, by simp⟩)

/-- Claim C3: folding set samples over a fresh store, the record's member
set holds exactly the distinct members (a duplicate insertion leaves the
set unchanged but still bumps `updates_num`), the flushed value is the
count of distinct members, and the member set is empty immediately after
the flush. -/
theorem claim_c3 (cfg : Config) (n : List Char) (ms : List (List Char)) (hne : ms ≠ []) :
    (∃ S : List (List Char),
      ms.foldl (fun s v => (statsd_handle_set s n v).getD s) [] =
        [(('s' :: ':' :: n), ⟨.set, 0, S, ms.length⟩)] ∧
      S.Nodup ∧ (∀ x, x ∈ S ↔ x ∈ ms) ∧ S.length = ms.dedup.length ∧
      statsd_read cfg (ms.foldl (fun s v => (statsd_handle_set s n v).getD s) []) =
        ([(n, .gauge (.num (ms.dedup.length : ℚ)))],
         [(('s' :: ':' :: n), ⟨.set, 0, [], 0⟩)])) ∧
    (∀ (t : Store) (m : Metric) (v : List Char),
      avlGet t ('s' :: ':' :: n) = some m → v ∈ m.set →
      ∃ t2, statsd_handle_set t n v = some t2 ∧
        avlGet t2 ('s' :: ':' :: n) = some ⟨m.type, m.value, m.set, m.updatesNum + 1⟩) := by
  constructor
  · obtain ⟨v0, ms', rfl⟩ := List.exists_cons_of_ne_nil hne
    rw [List.foldl_cons,
      handle_set_of_none [] n v0 (avlGet_nil _)]
    simp only [Option.getD_some]
    rw [setFold_single]
    set S := ms'.foldl (fun S v => if S.any (fun x => x == v) then S else v :: S) [v0] with hSdef
    have hmem : ∀ x, x ∈ S ↔ x ∈ v0 :: ms' := by
      intro x
      rw [hSdef, memFold_mem]
      simp [List.mem_cons]
    have hnd : S.Nodup := memFold_nodup ms' [v0] (by simp)
    have hperm : S.Perm (v0 :: ms').dedup := by
      rw [List.perm_ext_iff_of_nodup hnd (List.nodup_dedup _)]
      intro a
      rw [hmem a, List.mem_dedup]
    have hlen : S.length = (v0 :: ms').dedup.length := hperm.length_eq
    refine ⟨S, ?_, hnd, hmem, hlen, ?_⟩
    · simp [Nat.add_comm]
    · have hlenne : (1 + ms'.length) ≠ 0 := by omega
      simp only [Nat.add_comm 1 ms'.length]
      simp [statsd_read, evict, statsd_metric_value, statsd_metric_clear_set_nolock,
        Nat.succ_ne_zero, hlen]
  · intro t m v hget hmemv
    rw [handle_set_of_some t n v m hget]
    refine ⟨_, rfl, ?_⟩
    rw [avlGet_avlUpdate_self, hget]
    have hany : m.set.any (fun x => x == v) = true :=
      List.any_eq_true.mpr ⟨v, hmemv, by simp⟩
    rw [Option.map_some']
    rw [if_pos hany]

/-- Witness for C3: members alice, bob, alice flush as 2 distinct members
and the member set is empty afterwards. -/
theorem claim_c3_witness :
    statsd_read ⟨false, false, false, false⟩
        ([['a'], ['b'], ['a']].foldl
          (fun s v => (statsd_handle_set s ['u'] v).getD s) []) =
      ([(['u'], .gauge (.num 2))],
       [(('s' :: ':' :: ['u']), ⟨.set, 0, [], 0⟩)]) := by
  obtain ⟨S, hst, hnd, hmem, hlen, hread⟩ :=
    (claim_c3 ⟨false, false, false, false⟩ ['u'] [['a'], ['b'], ['a']] (by simp)).1
  have hd : ([['a'], ['b'], ['a']] : List (List Char)).dedup.length = 2 := by decide
  rw [hread, hd]
  norm_num

theorem gauge_abs_eq (t : Store) (n v0str : List Char) (v0 : Int)
    (h : parseDerive v0str = some v0)
    (h1 : v0str.head? ≠ some '+') (h2 : v0str.head? ≠ some '-') :
    statsd_handle_gauge t n v0str = some (statsd_metric_set t ('g' :: ':' :: n) v0 .gauge) := by
  simp [statsd_handle_gauge, h, h1, h2]

theorem gauge_rel_eq (t : Store) (n vstr : List Char) (v : Int)
    (h : parseDerive vstr = some v)
    (hsign : vstr.head? = some '+' ∨ vstr.head? = some '-') :
    statsd_handle_gauge t n vstr = some (statsd_metric_add t ('g' :: ':' :: n) v .gauge) := by
  rcases hsign with hs | hs <;> simp [statsd_handle_gauge, h, hs]

theorem gaugeRelFold_value (n : List Char) (rels : List (List Char × Int))
    (hrel : ∀ p ∈ rels, parseDerive p.1 = some p.2 ∧
      (p.1.head? = some '+' ∨ p.1.head? = some '-')) :
    ∀ (t : Store) (m : Metric), avlGet t ('g' :: ':' :: n) = some m →
    (avlGet (rels.foldl (fun s p => (statsd_handle_gauge s n p.1).getD s) t)
        ('g' :: ':' :: n)).map Metric.value =
      some (m.value + (rels.map (fun p => p.2)).sum) := by
  induction rels with
  | nil => intro t m h; simp [h]
  | cons p ps ih =>
    intro t m h
    obtain ⟨hp, hsign⟩ := hrel p (by simp)
    rw [List.foldl_cons, gauge_rel_eq t n p.1 p.2 hp hsign]
    simp only [Option.getD_some]
    rw [statsd_metric_add_of_some t _ _ _ m h]
    have hnew : avlGet (avlUpdate t ('g' :: ':' :: n) fun m =>
        { m with value := m.value + p.2, updatesNum := m.updatesNum + 1 }) ('g' :: ':' :: n) =
        some { m with value := m.value + p.2, updatesNum := m.updatesNum + 1 } := by
      rw [avlGet_avlUpdate_self, h]
      rfl
    rw [ih (fun q hq => hrel q (by simp [hq])) _ _ hnew]
    simp [add_assoc]

/-- Claim C4: for any starting store, one absolute gauge line (no leading
sign on the value text) followed by any sequence of relative gauge lines
(leading `+`/`-`) leaves the gauge's accumulator equal to the absolute
value plus the sum of the signed deltas. -/
theorem claim_c4 (st : Store) (n : List Char) (v0str : List Char) (v0 : Int)
    (h0 : parseDerive v0str = some v0)
    (h1 : v0str.head? ≠ some '+') (h2 : v0str.head? ≠ some '-')
    (rels : List (List Char × Int))
    (hrel : ∀ p ∈ rels, parseDerive p.1 = some p.2 ∧
      (p.1.head? = some '+' ∨ p.1.head? = some '-')) :
    (avlGet (rels.foldl (fun s p => (statsd_handle_gauge s n p.1).getD s)
        ((statsd_handle_gauge st n v0str).getD st)) ('g' :: ':' :: n)).map Metric.value =
      some (v0 + (rels.map (fun p => p.2)).sum) := by
  rw [gauge_abs_eq st n v0str v0 h0 h1 h2]
  simp only [Option.getD_some]
  have hset := avlGet_metric_set_self st ('g' :: ':' :: n) v0 .gauge
  cases hg : avlGet st ('g' :: ':' :: n) with
  | some m =>
    rw [hg] at hset
    exact gaugeRelFold_value n rels hrel _ _ hset
  | none =>
    rw [hg] at hset
    exact gaugeRelFold_value n rels hrel _ _ hset

/-- Witness for C4: `temp:72|g` then `temp:-5|g` leaves the accumulator at
67, matching the spec's concrete scenario. -/
theorem claim_c4_witness :
    (avlGet ([((['-', '5'] : List Char), (-5 : Int))].foldl
        (fun s p => (statsd_handle_gauge s ['t', 'e', 'm', 'p'] p.1).getD s)
        ((statsd_handle_gauge [] ['t', 'e', 'm', 'p'] ['7', '2']).getD []))
        ('g' :: ':' :: ['t', 'e', 'm', 'p'])).map Metric.value = some 67 := by
  have h := claim_c4 [] ['t', 'e', 'm', 'p'] ['7', '2'] 72 (by decide) (by decide) (by decide)
    [((['-', '5'] : List Char), (-5 : Int))]
    (by
      intro p hp
      simp only [List.mem_singleton] at hp
      subst hp
      exact ⟨by decide, Or.inr (by decide)⟩)
  simpa using h

end Statsd

namespace Statsd

theorem lowerEq_symm (a b : List Char) : lowerEq a b = lowerEq b a := by
  simp only [lowerEq]
  by_cases h : List.map Char.toLower a = List.map Char.toLower b
  · rw [h]
  · have h1 : (List.map Char.toLower a == List.map Char.toLower b) = false :=
      beq_eq_false_iff_ne.mpr h
    have h2 : (List.map Char.toLower b == List.map Char.toLower a) = false :=
      beq_eq_false_iff_ne.mpr (Ne.symm h)
    rw [h1, h2]

theorem lowerEq_trans (a b c : List Char) (hab : lowerEq a b = true)
    (hbc : lowerEq b c = true) : lowerEq a c = true := by
  simp only [lowerEq, beq_iff_eq] at hab hbc ⊢
  rw [hab, hbc]

theorem avlGet_eq_none_iff (t : Store) (k : List Char) :
    avlGet t k = none ↔ ∀ p ∈ t, lowerEq p.1 k = false := by
  induction t with
  | nil => simp
  | cons p rest ih =>
    obtain ⟨k', m⟩ := p
    by_cases h : lowerEq k' k
    · constructor
      · intro habs
        rw [avlGet_cons, if_pos h] at habs
        cases habs
      · intro hall
        have hthis := hall (k', m) (List.mem_cons_self _ _)
        rw [Bool.eq_false_iff] at hthis
        exact absurd h hthis
    · simp only [avlGet_cons, if_neg h, ih, List.mem_cons]
      constructor
      · intro hrest q hq
        rcases hq with rfl | hq
        · exact Bool.eq_false_iff.mpr h
        · exact hrest q hq
      · intro hall q hq
        exact hall q (Or.inr hq)

theorem statsd_read_snd_cons (cfg : Config) (k' : List Char) (m' : Metric) (rest : Store) :
    (statsd_read cfg ((k', m') :: rest)).2 =
      if evict cfg m' then (statsd_read cfg rest).2
      else (k', statsd_metric_clear_set_nolock { m' with updatesNum := 0 }) ::
        (statsd_read cfg rest).2 := by
  by_cases he : evict cfg m' <;>
    simp [statsd_read, List.filterMap_cons, he]

theorem statsd_read_fst_cons (cfg : Config) (k' : List Char) (m' : Metric) (rest : Store) :
    (statsd_read cfg ((k', m') :: rest)).1 =
      if evict cfg m' then (statsd_read cfg rest).1
      else (k'.drop 2, statsd_metric_value m') :: (statsd_read cfg rest).1 := by
  by_cases he : evict cfg m' <;>
    simp [statsd_read, List.filterMap_cons, he]

theorem read_avlGet_none (cfg : Config) (t : Store) (k : List Char)
    (h : avlGet t k = none) : avlGet (statsd_read cfg t).2 k = none := by
  induction t with
  | nil => simp [statsd_read]
  | cons p rest ih =>
    obtain ⟨k', m'⟩ := p
    simp only [avlGet_cons] at h
    by_cases hk : lowerEq k' k
    · simp [hk] at h
    · rw [if_neg hk] at h
      rw [statsd_read_snd_cons]
      by_cases he : evict cfg m'
      · rw [if_pos he]
        exact ih h
      · rw [if_neg he, avlGet_cons, if_neg hk]
        exact ih h

theorem read_avlGet_some (cfg : Config) (t : Store) (k : List Char) (m : Metric)
    (hget : avlGet t k = some m) (hkeep : evict cfg m = false) :
    avlGet (statsd_read cfg t).2 k =
      some (statsd_metric_clear_set_nolock { m with updatesNum := 0 }) := by
  induction t with
  | nil => simp at hget
  | cons p rest ih =>
    obtain ⟨k', m'⟩ := p
    simp only [avlGet_cons] at hget
    by_cases hk : lowerEq k' k
    · rw [if_pos hk] at hget
      have hm : m' = m := by injection hget
      rw [statsd_read_snd_cons, hm, hkeep]
      simp only [Bool.false_eq_true, if_false, avlGet_cons, if_pos hk]
    · rw [if_neg hk] at hget
      rw [statsd_read_snd_cons]
      by_cases he : evict cfg m'
      · rw [if_pos he]
        exact ih hget
      · rw [if_neg he, avlGet_cons, if_neg hk]
        exact ih hget

theorem read_evict_removes (cfg : Config) (t : Store) (k : List Char) (m : Metric)
    (hwf : StoreWF t) (hget : avlGet t k = some m)
    (hzero : m.updatesNum = 0) (hdel : deleteEnabled cfg m.type = true) :
    avlGet (statsd_read cfg t).2 k = none := by
  induction t with
  | nil => simp at hget
  | cons p rest ih =>
    obtain ⟨k', m'⟩ := p
    rw [StoreWF, List.pairwise_cons] at hwf
    obtain ⟨hhead, htail⟩ := hwf
    simp only [avlGet_cons] at hget
    by_cases hk : lowerEq k' k
    · rw [if_pos hk] at hget
      have hm : m' = m := by injection hget
      have hev : evict cfg m' = true := by
        rw [hm]
        simp [evict, hzero, hdel]
      rw [statsd_read_snd_cons, if_pos hev]
      have hnone : avlGet rest k = none := by
        rw [avlGet_eq_none_iff]
        intro q hq
        by_cases hqk : lowerEq q.1 k
        · exfalso
          have h1 : lowerEq k' q.1 = true := by
            rw [lowerEq_symm] at hqk
            exact lowerEq_trans k' k q.1 hk hqk
          have h2 := hhead q hq
          rw [h2] at h1
          cases h1
        · exact Bool.eq_false_iff.mpr hqk
      exact read_avlGet_none cfg rest k hnone
    · rw [if_neg hk] at hget
      rw [statsd_read_snd_cons]
      by_cases he : evict cfg m'
      · rw [if_pos he]
        exact ih htail hget
      · rw [if_neg he, avlGet_cons, if_neg hk]
        exact ih htail hget

/-- Claim C5: a record whose pre-reset `updates_num` is 0 and whose kind
has its delete switch enabled is removed from the store by the flush; on
the next sample for a key that is absent, a fresh record is created with
`updates_num = 1` and the accumulator equal to that first sample (for both
the add and the set entry paths of `statsd_metric_set_unsafe`). -/
theorem claim_c5 (cfg : Config) :
    (∀ (t : Store) (k : List Char) (m : Metric), StoreWF t →
      avlGet t k = some m → m.updatesNum = 0 → deleteEnabled cfg m.type = true →
      avlGet (statsd_read cfg t).2 k = none) ∧
    (∀ (t : Store) (k : List Char) (d : Int) (ty : MetricType),
      avlGet t k = none →
      avlGet (statsd_metric_add t k d ty) k = some ⟨ty, d, [], 1⟩) ∧
    (∀ (t : Store) (k : List Char) (v : Int) (ty : MetricType),
      avlGet t k = none →
      avlGet (statsd_metric_set t k v ty) k = some ⟨ty, v, [], 1⟩) := by
  refine ⟨fun t k m hwf hget hzero hdel =>
    read_evict_removes cfg t k m hwf hget hzero hdel, ?_, ?_⟩
  · intro t k d ty h
    rw [avlGet_metric_add_self, h]
  · intro t k v ty h
    rw [avlGet_metric_set_self, h]

/-- Witness for C5: an idle counter record is removed by a flush with
counter eviction on, and a fresh add and a fresh set both create a record
with one update holding the first sample. -/
theorem claim_c5_witness :
    avlGet (statsd_read ⟨true, false, false, false⟩
        [(['c', ':', 'n'], ⟨.counter, 5, [], 0⟩)]).2 ['c', ':', 'n'] = none ∧
    avlGet (statsd_metric_add [] ['c', ':', 'n'] 7 .counter) ['c', ':', 'n'] =
      some ⟨.counter, 7, [], 1⟩ ∧
    avlGet (statsd_metric_set [] ['g', ':', 'n'] 9 .gauge) ['g', ':', 'n'] =
      some ⟨.gauge, 9, [], 1⟩ := by
  obtain ⟨h1, h2, h3⟩ := claim_c5 ⟨true, false, false, false⟩
  refine ⟨h1 [(['c', ':', 'n'], ⟨.counter, 5, [], 0⟩)] ['c', ':', 'n'] ⟨.counter, 5, [], 0⟩
    ?_ (by simp [lowerEq_refl]) rfl rfl, h2 [] ['c', ':', 'n'] 7 .counter rfl,
    h3 [] ['g', ':', 'n'] 9 .gauge rfl⟩
  simp [StoreWF]

/-- Claim C10: a record that survives a flush keeps its kind and its
accumulator value; the flush changes only `updates_num` (reset to 0) and,
for set records, the member set (cleared). -/
theorem claim_c10 (cfg : Config) (t : Store) (k : List Char) (m : Metric)
    (hget : avlGet t k = some m) (hkeep : evict cfg m = false) :
    ∃ m', avlGet (statsd_read cfg t).2 k = some m' ∧
      m'.type = m.type ∧ m'.value = m.value ∧ m'.updatesNum = 0 ∧
      m'.set = (if m.type = .set then [] else m.set) := by
  refine ⟨_, read_avlGet_some cfg t k m hget hkeep, ?_⟩
  by_cases hty : m.type = MetricType.set <;>
    simp [statsd_metric_clear_set_nolock, hty]

/-- Witness for C10: a timer record with three updates and accumulator 30
survives a flush with value and kind intact and `updates_num` reset. -/
theorem claim_c10_witness :
    ∃ m', avlGet (statsd_read ⟨false, false, false, false⟩
        [(['t', ':', 'n'], ⟨.timer, 30, [], 3⟩)]).2 ['t', ':', 'n'] = some m' ∧
      m'.type = MetricType.timer ∧ m'.value = 30 ∧ m'.updatesNum = 0 ∧
      m'.set = ([] : List (List Char)) := by
  obtain ⟨m', hm', hty, hv, hu, hs⟩ := claim_c10 ⟨false, false, false, false⟩
    [(['t', ':', 'n'], ⟨.timer, 30, [], 3⟩)] ['t', ':', 'n'] ⟨.timer, 30, [], 3⟩
    (by simp [lowerEq_refl]) rfl
  exact ⟨m', hm', hty, hv, hu, by simpa using hs⟩

end Statsd

namespace Statsd

theorem avlGet_avlUpdate_lookup (t : Store) (k0 : List Char) (f : Metric → Metric)
    (k : List Char) (m' : Metric)
    (h : avlGet (avlUpdate t k0 f) k = some m') :
    (avlGet t k = some m') ∨ (∃ m, avlGet t k = some m ∧ m' = f m) := by
  induction t with
  | nil => simp at h
  | cons p rest ih =>
    obtain ⟨k1, m1⟩ := p
    by_cases h0 : lowerEq k1 k0
    · rw [avlUpdate_cons, if_pos h0] at h
      rw [avlGet_cons] at h ⊢
      by_cases hk : lowerEq k1 k
      · rw [if_pos hk] at h ⊢
        right
        refine ⟨m1, rfl, ?_⟩
        injection h with he
        exact he.symm
      · rw [if_neg hk] at h ⊢
        left
        exact h
    · rw [avlUpdate_cons, if_neg h0] at h
      rw [avlGet_cons] at h ⊢
      by_cases hk : lowerEq k1 k
      · rw [if_pos hk] at h ⊢
        left
        exact h
      · rw [if_neg hk] at h ⊢
        exact ih h

theorem countOk_metric_add (t : Store) (name : List Char) (d : Int) (ty : MetricType)
    (k : List Char) (h : CountOk t k) : CountOk (statsd_metric_add t name d ty) k := by
  intro m' hm'
  cases hg : avlGet t name with
  | some m0 =>
    rw [statsd_metric_add_of_some t name d ty m0 hg] at hm'
    rcases avlGet_avlUpdate_lookup _ _ _ _ _ hm' with hold | ⟨m, hm, rfl⟩
    · exact h _ hold
    · simp only []
      omega
  | none =>
    rw [statsd_metric_add_of_none t name d ty hg, avlGet_cons] at hm'
    by_cases hk : lowerEq name k
    · rw [if_pos hk] at hm'
      have : (⟨ty, d, [], 1⟩ : Metric) = m' := by injection hm'
      rw [← this]
    · rw [if_neg hk] at hm'
      exact h _ hm'

theorem countOk_metric_set (t : Store) (name : List Char) (v : Int) (ty : MetricType)
    (k : List Char) (h : CountOk t k) : CountOk (statsd_metric_set t name v ty) k := by
  intro m' hm'
  cases hg : avlGet t name with
  | some m0 =>
    rw [statsd_metric_set_of_some t name v ty m0 hg] at hm'
    rcases avlGet_avlUpdate_lookup _ _ _ _ _ hm' with hold | ⟨m, hm, rfl⟩
    · exact h _ hold
    · simp only []
      omega
  | none =>
    rw [statsd_metric_set_of_none t name v ty hg, avlGet_cons] at hm'
    by_cases hk : lowerEq name k
    · rw [if_pos hk] at hm'
      have : (⟨ty, v, [], 1⟩ : Metric) = m' := by injection hm'
      rw [← this]
    · rw [if_neg hk] at hm'
      exact h _ hm'

theorem countOk_handle_set (t : Store) (n v : List Char) (k : List Char)
    (t2 : Store) (ht2 : statsd_handle_set t n v = some t2)
    (h : CountOk t k) : CountOk t2 k := by
  intro m' hm'
  cases hg : avlGet t ('s' :: ':' :: n) with
  | some m0 =>
    rw [handle_set_of_some t n v m0 hg] at ht2
    injection ht2 with ht2
    rw [← ht2] at hm'
    rcases avlGet_avlUpdate_lookup _ _ _ _ _ hm' with hold | ⟨m, hm, rfl⟩
    · exact h _ hold
    · simp only []
      omega
  | none =>
    rw [handle_set_of_none t n v hg] at ht2
    injection ht2 with ht2
    rw [← ht2, avlGet_cons] at hm'
    by_cases hk : lowerEq ('s' :: ':' :: n) k
    · rw [if_pos hk] at hm'
      have : (⟨.set, 0, [v], 1⟩ : Metric) = m' := by injection hm'
      rw [← this]
    · rw [if_neg hk] at hm'
      exact h _ hm'

theorem countOk_dispatch (t : Store) (name value ty : List Char)
    (ex : Option (List Char)) (k : List Char) (t2 : Store)
    (ht2 : statsd_dispatch t name value ty ex = some t2)
    (h : CountOk t k) : CountOk t2 k := by
  unfold statsd_dispatch at ht2
  by_cases h1 : ty == ['c']
  · rw [if_pos h1] at ht2
    unfold statsd_handle_counter at ht2
    cases hd : counterDelta value ex with
    | none => rw [hd] at ht2; cases ht2
    | some d =>
      rw [hd] at ht2
      injection ht2 with ht2
      rw [← ht2]
      exact countOk_metric_add t _ d .counter k h
  · rw [if_neg h1] at ht2
    by_cases h2 : ex.isSome
    · rw [if_pos h2] at ht2; cases ht2
    · rw [if_neg h2] at ht2
      by_cases h3 : ty == ['g']
      · rw [if_pos h3] at ht2
        unfold statsd_handle_gauge at ht2
        cases hd : parseDerive value with
        | none => rw [hd] at ht2; cases ht2
        | some v =>
          rw [hd, Option.map_some'] at ht2
          injection ht2 with ht2
          by_cases hsg : value.head? = some '+' ∨ value.head? = some '-'
          · have ht3 : statsd_metric_add t ('g' :: ':' :: name) v .gauge = t2 := by
              rw [← ht2]
              simp only [if_pos hsg]
            rw [← ht3]
            exact countOk_metric_add t _ v .gauge k h
          · have ht3 : statsd_metric_set t ('g' :: ':' :: name) v .gauge = t2 := by
              rw [← ht2]
              simp only [if_neg hsg]
            rw [← ht3]
            exact countOk_metric_set t _ v .gauge k h
      · rw [if_neg h3] at ht2
        by_cases h4 : ty == ['m', 's']
        · rw [if_pos h4] at ht2
          unfold statsd_handle_timer at ht2
          cases hd : parseDerive value with
          | none => rw [hd] at ht2; cases ht2
          | some v =>
            rw [hd] at ht2
            injection ht2 with ht2
            rw [← ht2]
            exact countOk_metric_add t _ v .timer k h
        · rw [if_neg h4] at ht2
          by_cases h5 : ty == ['s']
          · rw [if_pos h5] at ht2
            exact countOk_handle_set t _ _ k t2 ht2 h
          · rw [if_neg h5] at ht2
            cases ht2

theorem countOk_parse_line (t : Store) (line : List Char) (k : List Char)
    (t2 : Store) (ht2 : statsd_parse_line t line = some t2)
    (h : CountOk t k) : CountOk t2 k := by
  unfold statsd_parse_line at ht2
  cases hs1 : strchrSplit line '|' with
  | none => rw [hs1] at ht2; cases ht2
  | some p1 =>
    obtain ⟨pre, rest⟩ := p1
    rw [hs1] at ht2
    cases hs2 : strrchrSplit pre ':' with
    | none => simp only [hs2] at ht2; cases ht2
    | some p2 =>
      obtain ⟨na, va⟩ := p2
      simp only [hs2] at ht2
      cases hs3 : strchrSplit rest '|' with
      | none =>
        simp only [hs3] at ht2
        exact countOk_dispatch t na va rest none k t2 ht2 h
      | some p3 =>
        obtain ⟨ty, ex⟩ := p3
        simp only [hs3] at ht2
        exact countOk_dispatch t na va ty (some ex) k t2 ht2 h

theorem countOk_applyLine (t : Store) (line : List Char) (k : List Char)
    (h : CountOk t k) : CountOk (applyLine t line) k := by
  unfold applyLine
  cases ht2 : statsd_parse_line t line with
  | none => exact h
  | some t2 => exact countOk_parse_line t line k t2 ht2 h

theorem countOk_parse_buffer (t : Store) (buf : List Char) (k : List Char)
    (h : CountOk t k) : CountOk (statsd_parse_buffer t buf) k := by
  unfold statsd_parse_buffer
  generalize splitLines buf = lines
  induction lines generalizing t with
  | nil => exact h
  | cons l ls ih =>
    rw [List.foldl_cons]
    exact ih _ (countOk_applyLine t l k h)

/-- Claim C9: records exist in the store only through a successful sample
application: any key that appears during the processing of a datagram
carries at least one update, and the flush cycle never creates a record
for a key that was absent. -/
theorem claim_c9 :
    (∀ (t : Store) (buf k : List Char) (m : Metric),
      avlGet t k = none → avlGet (statsd_parse_buffer t buf) k = some m →
      1 ≤ m.updatesNum) ∧
    (∀ (cfg : Config) (t : Store) (k : List Char),
      avlGet t k = none → avlGet (statsd_read cfg t).2 k = none) := by
  constructor
  · intro t buf k m h0 hm
    have hok : CountOk t k := by
      intro m0 hm0
      rw [h0] at hm0
      cases hm0
    exact countOk_parse_buffer t buf k hok m hm
  · intro cfg t k h
    exact read_avlGet_none cfg t k h

/-- Witness for C9: the set line `u:a|s` on an empty store creates a record
with one update, and a flush of a store without key `"z"` leaves that key
absent. -/
theorem claim_c9_witness :
    (1 : Nat) ≤ (⟨.set, 0, [['a']], 1⟩ : Metric).updatesNum ∧
    avlGet (statsd_read ⟨false, false, false, false⟩
        [(['c', ':', 'n'], ⟨.counter, 5, [], 2⟩)]).2 ['z'] = none := by
  constructor
  · exact (claim_c9).1 [] ['u', ':', 'a', '|', 's'] ['s', ':', 'u'] ⟨.set, 0, [['a']], 1⟩
      rfl (by decide)
  · exact (claim_c9).2 ⟨false, false, false, false⟩
      [(['c', ':', 'n'], ⟨.counter, 5, [], 2⟩)] ['z'] (by decide)

end Statsd

namespace Statsd

theorem strchrSplit_not_mem (s : List Char) (c : Char) (h : c ∉ s) :
    strchrSplit s c = none := by
  induction s with
  | nil => rfl
  | cons x rest ih =>
    have hx : x ≠ c := fun hxc => h (hxc ▸ List.mem_cons_self x rest)
    rw [strchrSplit, if_neg hx, ih (fun hm => h (List.mem_cons_of_mem x hm))]
    rfl

theorem strchrSplit_append (a b : List Char) (c : Char) (h : c ∉ a) :
    strchrSplit (a ++ c :: b) c = some (a, b) := by
  induction a with
  | nil => simp [strchrSplit]
  | cons x rest ih =>
    have hx : x ≠ c := fun hxc => h (hxc ▸ List.mem_cons_self x rest)
    rw [List.cons_append, strchrSplit, if_neg hx,
      ih (fun hm => h (List.mem_cons_of_mem x hm))]
    rfl

theorem strrchrSplit_not_mem (s : List Char) (c : Char) (h : c ∉ s) :
    strrchrSplit s c = none := by
  unfold strrchrSplit
  rw [strchrSplit_not_mem s.reverse c (by simpa using h)]

theorem strrchrSplit_append (a b : List Char) (c : Char) (h : c ∉ b) :
    strrchrSplit (a ++ c :: b) c = some (a, b) := by
  unfold strrchrSplit
  have hrev : (a ++ c :: b).reverse = b.reverse ++ c :: a.reverse := by
    simp
  rw [hrev, strchrSplit_append _ _ _ (by simpa using h)]
  simp

theorem parse_line_decomp (t : Store) (name value rest : List Char)
    (hn : '|' ∉ name) (hv : '|' ∉ value) (hvc : ':' ∉ value) :
    statsd_parse_line t (name ++ ':' :: (value ++ '|' :: rest)) =
      match strchrSplit rest '|' with
      | none => statsd_dispatch t name value rest none
      | some (ty, ex) => statsd_dispatch t name value ty (some ex) := by
  have hassoc : name ++ ':' :: (value ++ '|' :: rest) =
      (name ++ ':' :: value) ++ '|' :: rest := by
    simp
  have hnp : '|' ∉ name ++ ':' :: value := by
    simp only [List.mem_append, List.mem_cons]
    rintro (h | h | h)
    · exact hn h
    · exact absurd h (by decide)
    · exact hv h
  have h1 : strchrSplit ((name ++ ':' :: value) ++ '|' :: rest) '|' =
      some (name ++ ':' :: value, rest) := strchrSplit_append _ _ _ hnp
  have h2 : strrchrSplit (name ++ ':' :: value) ':' = some (name, value) :=
    strrchrSplit_append _ _ _ hvc
  rw [hassoc]
  simp only [statsd_parse_line, h1, h2]

theorem no_wire_char_of_all_digits (s : List Char) (hall : s.all Char.isDigit = true)
    (c : Char) (hc : c.isDigit = false) : c ∉ s := by
  intro hmem
  rw [List.all_eq_true] at hall
  have hd := hall c hmem
  rw [hc] at hd
  cases hd

theorem parseDigits_all (s : List Char) (n : Nat) (h : parseDigits s = some n) :
    s.all Char.isDigit = true := by
  unfold parseDigits at h
  by_cases hc : s ≠ [] ∧ s.all Char.isDigit = true
  · exact hc.2
  · rw [if_neg hc] at h
    cases h

theorem parseDerive_safe_chars (s : List Char) (v : Int) (h : parseDerive s = some v) :
    '|' ∉ s ∧ ':' ∉ s := by
  cases s with
  | nil => simp [parseDerive] at h
  | cons c rest =>
    simp only [parseDerive] at h
    by_cases h1 : c = '+'
    · rw [if_pos h1] at h
      obtain ⟨n, hn⟩ : ∃ n, parseDigits rest = some n := by
        cases hn : parseDigits rest with
        | none => rw [hn] at h; simp at h
        | some n => exact ⟨n, rfl⟩
      have hall := parseDigits_all rest n hn
      subst h1
      refine ⟨?_, ?_⟩ <;> intro hmem <;> rcases List.mem_cons.mp hmem with heq | hmem'
      · exact absurd heq (by decide)
      · exact no_wire_char_of_all_digits rest hall '|' (by decide) hmem'
      · exact absurd heq (by decide)
      · exact no_wire_char_of_all_digits rest hall ':' (by decide) hmem'
    · rw [if_neg h1] at h
      by_cases h2 : c = '-'
      · rw [if_pos h2] at h
        obtain ⟨n, hn⟩ : ∃ n, parseDigits rest = some n := by
          cases hn : parseDigits rest with
          | none => rw [hn] at h; simp at h
          | some n => exact ⟨n, rfl⟩
        have hall := parseDigits_all rest n hn
        subst h2
        refine ⟨?_, ?_⟩ <;> intro hmem <;> rcases List.mem_cons.mp hmem with heq | hmem'
        · exact absurd heq (by decide)
        · exact no_wire_char_of_all_digits rest hall '|' (by decide) hmem'
        · exact absurd heq (by decide)
        · exact no_wire_char_of_all_digits rest hall ':' (by decide) hmem'
      · rw [if_neg h2] at h
        obtain ⟨n, hn⟩ : ∃ n, parseDigits (c :: rest) = some n := by
          cases hn : parseDigits (c :: rest) with
          | none => rw [hn] at h; simp at h
          | some n => exact ⟨n, rfl⟩
        have hall := parseDigits_all (c :: rest) n hn
        exact ⟨no_wire_char_of_all_digits _ hall '|' (by decide),
          no_wire_char_of_all_digits _ hall ':' (by decide)⟩

end Statsd

namespace Statsd

theorem parse_line_missing_colon (t : Store) :
    statsd_parse_line t ['f', 'o', 'o', '|', 'c'] = none := rfl

theorem parse_line_no_pipe (t : Store) (s : List Char) (h : '|' ∉ s) :
    statsd_parse_line t s = none := by
  unfold statsd_parse_line
  rw [strchrSplit_not_mem s '|' h]

theorem parse_line_bad_value (t : Store) (name value ty : List Char)
    (hn : '|' ∉ name) (hv : '|' ∉ value) (hvc : ':' ∉ value) (hty : '|' ∉ ty)
    (hpd : parseDerive value = none) (hc : ty = ['g'] ∨ ty = ['m', 's']) :
    statsd_parse_line t (name ++ ':' :: (value ++ '|' :: ty)) = none := by
  rw [parse_line_decomp t name value ty hn hv hvc, strchrSplit_not_mem ty '|' hty]
  rcases hc with rfl | rfl
  · simp [statsd_dispatch, statsd_handle_gauge, hpd]
  · simp [statsd_dispatch, statsd_handle_timer, hpd]

theorem parse_line_unknown_kind (t : Store) (name value ty : List Char)
    (hn : '|' ∉ name) (hv : '|' ∉ value) (hvc : ':' ∉ value) (hty : '|' ∉ ty)
    (h1 : ty ≠ ['c']) (h2 : ty ≠ ['g']) (h3 : ty ≠ ['m', 's']) (h4 : ty ≠ ['s']) :
    statsd_parse_line t (name ++ ':' :: (value ++ '|' :: ty)) = none := by
  rw [parse_line_decomp t name value ty hn hv hvc, strchrSplit_not_mem ty '|' hty]
  have b1 : (ty == ['c']) = false := beq_eq_false_iff_ne.mpr h1
  have b2 : (ty == ['g']) = false := beq_eq_false_iff_ne.mpr h2
  have b3 : (ty == ['m', 's']) = false := beq_eq_false_iff_ne.mpr h3
  have b4 : (ty == ['s']) = false := beq_eq_false_iff_ne.mpr h4
  simp [statsd_dispatch, b1, b2, b3, b4]

theorem parse_line_extra_non_counter (t : Store) (name value ty e : List Char)
    (hn : '|' ∉ name) (hv : '|' ∉ value) (hvc : ':' ∉ value) (hty : '|' ∉ ty)
    (h1 : ty ≠ ['c']) :
    statsd_parse_line t (name ++ ':' :: (value ++ '|' :: (ty ++ '|' :: e))) = none := by
  rw [parse_line_decomp t name value (ty ++ '|' :: e) hn hv hvc,
    strchrSplit_append ty e '|' hty]
  have b1 : (ty == ['c']) = false := beq_eq_false_iff_ne.mpr h1
  simp [statsd_dispatch, b1]

theorem parse_line_bad_rate (t : Store) (name value rstr : List Char) (q : ℚ)
    (hn : '|' ∉ name) (hv : '|' ∉ value) (hvc : ':' ∉ value)
    (hq : parseGaugeRat rstr = some q) (hbad : ¬(0 < q ∧ q ≤ 1)) :
    statsd_parse_line t (name ++ ':' :: (value ++ '|' :: ('c' :: '|' :: '@' :: rstr))) =
      none := by
  rw [show ('c' :: '|' :: '@' :: rstr : List Char) = ['c'] ++ '|' :: ('@' :: rstr) from rfl,
    parse_line_decomp t name value _ hn hv hvc,
    strchrSplit_append ['c'] ('@' :: rstr) '|' (by decide)]
  simp [statsd_dispatch, statsd_handle_counter, counterDelta, hq, hbad]

theorem parse_line_counter_reject (t : Store) (name value : List Char) (i : Int)
    (hn : '|' ∉ name) (hpd : parseDerive value = some i) (hlt : i < 1) :
    statsd_parse_line t (name ++ ':' :: (value ++ '|' :: ['c'])) = none := by
  obtain ⟨hv, hvc⟩ := parseDerive_safe_chars value i hpd
  rw [parse_line_decomp t name value ['c'] hn hv hvc,
    strchrSplit_not_mem ['c'] '|' (by decide)]
  simp [statsd_dispatch, statsd_handle_counter, counterDelta, hpd, hlt]

theorem applyLine_skip (st : Store) (bad : List Char) (l1 l2 : List (List Char))
    (h : ∀ s, statsd_parse_line s bad = none) :
    applyLine st bad = st ∧
    List.foldl applyLine st (l1 ++ bad :: l2) = List.foldl applyLine st (l1 ++ l2) := by
  have hap : ∀ s, applyLine s bad = s := by
    intro s
    unfold applyLine
    rw [h s]
  refine ⟨hap st, ?_⟩
  rw [List.foldl_append, List.foldl_append, List.foldl_cons, hap]

/-- Claim C6: every class of malformed line — missing `:` delimiter (the
spec's `foo|c` example), missing `|` delimiter, non-numeric value, unknown
kind token, a rate suffix on a non-counter line, an out-of-range rate, a
non-positive counter value — makes `statsd_parse_line` return the failure
indicator without creating or mutating any record, and a failing line in a
datagram leaves the store unchanged while the sibling lines are still
applied. -/
theorem claim_c6 :
    (∀ t : Store, statsd_parse_line t ['f', 'o', 'o', '|', 'c'] = none) ∧
    (∀ (t : Store) (s : List Char), '|' ∉ s → statsd_parse_line t s = none) ∧
    (∀ (t : Store) (name value ty : List Char), '|' ∉ name → '|' ∉ value → ':' ∉ value →
      '|' ∉ ty → parseDerive value = none → (ty = ['g'] ∨ ty = ['m', 's']) →
      statsd_parse_line t (name ++ ':' :: (value ++ '|' :: ty)) = none) ∧
    (∀ (t : Store) (name value ty : List Char), '|' ∉ name → '|' ∉ value → ':' ∉ value →
      '|' ∉ ty → ty ≠ ['c'] → ty ≠ ['g'] → ty ≠ ['m', 's'] → ty ≠ ['s'] →
      statsd_parse_line t (name ++ ':' :: (value ++ '|' :: ty)) = none) ∧
    (∀ (t : Store) (name value ty e : List Char), '|' ∉ name → '|' ∉ value → ':' ∉ value →
      '|' ∉ ty → ty ≠ ['c'] →
      statsd_parse_line t (name ++ ':' :: (value ++ '|' :: (ty ++ '|' :: e))) = none) ∧
    (∀ (t : Store) (name value rstr : List Char) (q : ℚ), '|' ∉ name → '|' ∉ value →
      ':' ∉ value → parseGaugeRat rstr = some q → ¬(0 < q ∧ q ≤ 1) →
      statsd_parse_line t (name ++ ':' :: (value ++ '|' :: ('c' :: '|' :: '@' :: rstr))) =
        none) ∧
    (∀ (t : Store) (name value : List Char) (i : Int), '|' ∉ name →
      parseDerive value = some i → i < 1 →
      statsd_parse_line t (name ++ ':' :: (value ++ '|' :: ['c'])) = none) ∧
    (∀ (st : Store) (bad : List Char) (l1 l2 : List (List Char)),
      (∀ s, statsd_parse_line s bad = none) →
      applyLine st bad = st ∧
      List.foldl applyLine st (l1 ++ bad :: l2) = List.foldl applyLine st (l1 ++ l2)) := by
  refine ⟨parse_line_missing_colon, parse_line_no_pipe, ?_, ?_, ?_, ?_, ?_, applyLine_skip⟩
  · intro t name value ty hn hv hvc hty hpd hc
    exact parse_line_bad_value t name value ty hn hv hvc hty hpd hc
  · intro t name value ty hn hv hvc hty h1 h2 h3 h4
    exact parse_line_unknown_kind t name value ty hn hv hvc hty h1 h2 h3 h4
  · intro t name value ty e hn hv hvc hty h1
    exact parse_line_extra_non_counter t name value ty e hn hv hvc hty h1
  · intro t name value rstr q hn hv hvc hq hbad
    exact parse_line_bad_rate t name value rstr q hn hv hvc hq hbad
  · intro t name value i hn hpd hlt
    exact parse_line_counter_reject t name value i hn hpd hlt

end Statsd

namespace Statsd

/-- Witness for C6: concrete malformed lines of each class fail to parse,
and a malformed line in a line sequence is skipped without touching the
store. -/
theorem claim_c6_witness :
    statsd_parse_line [] ['f', 'o', 'o', '|', 'c'] = none ∧
    statsd_parse_line [] ['x'] = none ∧
    statsd_parse_line [] (['n'] ++ ':' :: (['a'] ++ '|' :: ['g'])) = none ∧
    statsd_parse_line [] (['n'] ++ ':' :: (['1'] ++ '|' :: ['x'])) = none ∧
    statsd_parse_line [] (['n'] ++ ':' :: (['1'] ++ '|' :: (['g'] ++ '|' :: ['@']))) = none ∧
    statsd_parse_line [] (['n'] ++ ':' :: (['1'] ++ '|' :: ('c' :: '|' :: '@' :: ['2']))) =
      none ∧
    statsd_parse_line [] (['n'] ++ ':' :: (['0'] ++ '|' :: ['c'])) = none ∧
    (applyLine [] ['f', 'o', 'o', '|', 'c'] = [] ∧
      List.foldl applyLine [] ([] ++ ['f', 'o', 'o', '|', 'c'] :: []) =
        List.foldl applyLine [] ([] ++ [])) := by
  obtain ⟨p1, p2, p3, p4, p5, p6, p7, p8⟩ := claim_c6
  exact ⟨p1 [], p2 [] ['x'] (by decide),
    p3 [] ['n'] ['a'] ['g'] (by decide) (by decide) (by decide) (by decide) (by decide)
      (Or.inl rfl),
    p4 [] ['n'] ['1'] ['x'] (by decide) (by decide) (by decide) (by decide) (by decide)
      (by decide) (by decide) (by decide),
    p5 [] ['n'] ['1'] ['g'] ['@'] (by decide) (by decide) (by decide) (by decide) (by decide),
    p6 [] ['n'] ['1'] ['2'] 2 (by decide) (by decide) (by decide) (by decide) (by decide),
    p7 [] ['n'] ['0'] 0 (by decide) (by decide) (by decide),
    p8 [] ['f', 'o', 'o', '|', 'c'] [] [] p1⟩

end Statsd

namespace Statsd

/-- Claim C7: the sample-rate suffix on a counter must start with `@` and
carry a rate in `(0, 1]` (anything else fails); a rate suffix on a
non-counter line is a parse failure; the counter value must parse as an
integer `≥ 1`; and an accepted line applies the delta
`ratTrunc (value / rate)` — the raw value divided by the rate, truncated
toward zero (the `double` divide and `int64_t` cast modelled over exact
rationals). -/
theorem claim_c7 :
    (∀ (t : Store) (n v e : List Char), e.head? ≠ some '@' →
      statsd_handle_counter t n v (some e) = none) ∧
    (∀ (t : Store) (n v rstr : List Char), parseGaugeRat rstr = none →
      statsd_handle_counter t n v (some ('@' :: rstr)) = none) ∧
    (∀ (t : Store) (n v rstr : List Char) (q : ℚ), parseGaugeRat rstr = some q →
      ¬(0 < q ∧ q ≤ 1) → statsd_handle_counter t n v (some ('@' :: rstr)) = none) ∧
    (∀ (t : Store) (name value ty e : List Char), '|' ∉ name → '|' ∉ value →
      ':' ∉ value → '|' ∉ ty → ty ≠ ['c'] →
      statsd_parse_line t (name ++ ':' :: (value ++ '|' :: (ty ++ '|' :: e))) = none) ∧
    (∀ (t : Store) (n v : List Char) (ex : Option (List Char)), parseDerive v = none →
      statsd_handle_counter t n v ex = none) ∧
    (∀ (t : Store) (n v : List Char) (ex : Option (List Char)) (i : Int),
      parseDerive v = some i → i < 1 → statsd_handle_counter t n v ex = none) ∧
    (∀ (t : Store) (n v rstr : List Char) (i : Int) (q : ℚ),
      parseDerive v = some i → 1 ≤ i → parseGaugeRat rstr = some q → 0 < q → q ≤ 1 →
      statsd_handle_counter t n v (some ('@' :: rstr)) =
        some (statsd_metric_add t ('c' :: ':' :: n) (ratTrunc ((i : ℚ) / q)) .counter)) ∧
    (∀ (t : Store) (n v : List Char) (i : Int), parseDerive v = some i → 1 ≤ i →
      statsd_handle_counter t n v none =
        some (statsd_metric_add t ('c' :: ':' :: n) (ratTrunc ((i : ℚ) / 1)) .counter)) := by
  refine ⟨?_, ?_, ?_, ?_, ?_, ?_, ?_, ?_⟩
  · intro t n v e hh
    cases e with
    | nil => simp [statsd_handle_counter, counterDelta]
    | cons c r =>
      have hc : ¬c = '@' := by
        intro hc
        exact hh (by rw [hc]; rfl)
      simp [statsd_handle_counter, counterDelta, hc]
  · intro t n v rstr hq
    simp [statsd_handle_counter, counterDelta, hq]
  · intro t n v rstr q hq hbad
    simp [statsd_handle_counter, counterDelta, hq, hbad]
  · intro t name value ty e hn hv hvc hty h1
    exact parse_line_extra_non_counter t name value ty e hn hv hvc hty h1
  · intro t n v ex hpd
    cases ex with
    | none => simp [statsd_handle_counter, counterDelta, hpd]
    | some e =>
      cases e with
      | nil => simp [statsd_handle_counter, counterDelta]
      | cons c r =>
        by_cases hc : c = '@'
        · subst hc
          cases hq : parseGaugeRat r with
          | none => simp [statsd_handle_counter, counterDelta, hq]
          | some q =>
            by_cases hr : 0 < q ∧ q ≤ 1
            · simp [statsd_handle_counter, counterDelta, hq, hr, hpd]
            · simp [statsd_handle_counter, counterDelta, hq, hr]
        · simp [statsd_handle_counter, counterDelta, hc]
  · intro t n v ex i hpd hlt
    cases ex with
    | none => simp [statsd_handle_counter, counterDelta, hpd, hlt]
    | some e =>
      cases e with
      | nil => simp [statsd_handle_counter, counterDelta]
      | cons c r =>
        by_cases hc : c = '@'
        · subst hc
          cases hq : parseGaugeRat r with
          | none => simp [statsd_handle_counter, counterDelta, hq]
          | some q =>
            by_cases hr : 0 < q ∧ q ≤ 1
            · simp [statsd_handle_counter, counterDelta, hq, hr, hpd, hlt]
            · simp [statsd_handle_counter, counterDelta, hq, hr]
        · simp [statsd_handle_counter, counterDelta, hc]
  · intro t n v rstr i q hpd h1i hq hq0 hq1
    have hnlt : ¬i < 1 := not_lt.mpr h1i
    simp [statsd_handle_counter, counterDelta, hq, hq0, hq1, hpd, hnlt]
  · intro t n v i hpd h1i
    have hnlt : ¬i < 1 := not_lt.mpr h1i
    simp [statsd_handle_counter, counterDelta, hpd, hnlt]

/-- Witness for C7: concrete accept and reject cases — bad suffix `r1`,
unparsable rate, rate 2 out of range, rate on a gauge line, value `x`,
value 0, and accepted counters `5|c|@1` and `5|c`. -/
theorem claim_c7_witness :
    statsd_handle_counter [] ['n'] ['5'] (some ['r', '1']) = none ∧
    statsd_handle_counter [] ['n'] ['5'] (some ['@', 'x']) = none ∧
    statsd_handle_counter [] ['n'] ['5'] (some ['@', '2']) = none ∧
    statsd_parse_line [] (['n'] ++ ':' :: (['1'] ++ '|' :: (['g'] ++ '|' :: ['@', '1']))) =
      none ∧
    statsd_handle_counter [] ['n'] ['x'] none = none ∧
    statsd_handle_counter [] ['n'] ['0'] none = none ∧
    statsd_handle_counter [] ['n'] ['5'] (some ['@', '1']) =
      some (statsd_metric_add [] ('c' :: ':' :: ['n'])
        (ratTrunc (((5 : Int) : ℚ) / 1)) .counter) ∧
    statsd_handle_counter [] ['n'] ['5'] none =
      some (statsd_metric_add [] ('c' :: ':' :: ['n'])
        (ratTrunc (((5 : Int) : ℚ) / 1)) .counter) := by
  obtain ⟨p1, p2, p3, p4, p5, p6, p7, p8⟩ := claim_c7
  exact ⟨p1 [] ['n'] ['5'] ['r', '1'] (by decide),
    p2 [] ['n'] ['5'] ['x'] (by decide),
    p3 [] ['n'] ['5'] ['2'] 2 (by decide) (by decide),
    p4 [] ['n'] ['1'] ['g'] ['@', '1'] (by decide) (by decide) (by decide) (by decide)
      (by decide),
    p5 [] ['n'] ['x'] none (by decide),
    p6 [] ['n'] ['0'] none 0 (by decide) (by decide),
    p7 [] ['n'] ['5'] ['1'] 5 1 (by decide) (by decide) (by decide) (by decide) (by decide),
    p8 [] ['n'] ['5'] 5 (by decide) (by decide)⟩

end Statsd

namespace Statsd

theorem metric_add_keys (t : Store) (k : List Char) (d : Int) (ty : MetricType) :
    (statsd_metric_add t k d ty).map Prod.fst = t.map Prod.fst ∨
    (statsd_metric_add t k d ty).map Prod.fst = k :: t.map Prod.fst := by
  cases h : avlGet t k with
  | some m =>
    rw [statsd_metric_add_of_some t k d ty m h]
    exact Or.inl (avlUpdate_map_fst t k _)
  | none =>
    rw [statsd_metric_add_of_none t k d ty h]
    exact Or.inr (by simp)

theorem metric_set_keys (t : Store) (k : List Char) (v : Int) (ty : MetricType) :
    (statsd_metric_set t k v ty).map Prod.fst = t.map Prod.fst ∨
    (statsd_metric_set t k v ty).map Prod.fst = k :: t.map Prod.fst := by
  cases h : avlGet t k with
  | some m =>
    rw [statsd_metric_set_of_some t k v ty m h]
    exact Or.inl (avlUpdate_map_fst t k _)
  | none =>
    rw [statsd_metric_set_of_none t k v ty h]
    exact Or.inr (by simp)

theorem handle_set_keys (t : Store) (n v : List Char) (t' : Store)
    (h : statsd_handle_set t n v = some t') :
    t'.map Prod.fst = t.map Prod.fst ∨
    t'.map Prod.fst = ('s' :: ':' :: n) :: t.map Prod.fst := by
  cases hg : avlGet t ('s' :: ':' :: n) with
  | some m =>
    rw [handle_set_of_some t n v m hg] at h
    injection h with h
    rw [← h]
    exact Or.inl (avlUpdate_map_fst t _ _)
  | none =>
    rw [handle_set_of_none t n v hg] at h
    injection h with h
    rw [← h]
    exact Or.inr (by simp)

theorem new_key_of_keys_or (t t' : Store) (key : List Char)
    (h : t'.map Prod.fst = t.map Prod.fst ∨ t'.map Prod.fst = key :: t.map Prod.fst) :
    ∀ k ∈ t'.map Prod.fst, k ∈ t.map Prod.fst ∨ k = key := by
  intro k hk
  rcases h with h | h
  · rw [h] at hk
    exact Or.inl hk
  · rw [h] at hk
    rcases List.mem_cons.mp hk with rfl | hk
    · exact Or.inr rfl
    · exact Or.inl hk

theorem avlGet_congr (t : Store) (k k' : List Char) (h : lowerEq k k' = true) :
    avlGet t k = avlGet t k' := by
  induction t with
  | nil => rfl
  | cons p rest ih =>
    obtain ⟨k1, m⟩ := p
    rw [avlGet_cons, avlGet_cons, lowerEq_congr_right k k' h k1]
    by_cases h1 : lowerEq k1 k' <;> simp [h1, ih]

/-- Claim C8, amended: store keys are the one-character kind tag followed
by a colon and then the user-supplied name (so a counter and a gauge with
the same user name occupy distinct entries); lookups compare
case-insensitively while the stored key keeps the spelling of the first
successful sample; and the emission at flush strips the two-character
`"x:"` prefix from the key. -/
theorem claim_c8 :
    (∀ (t : Store) (n v : List Char) (ex : Option (List Char)) (t' : Store),
      statsd_handle_counter t n v ex = some t' →
      ∀ k ∈ t'.map Prod.fst, k ∈ t.map Prod.fst ∨ k = 'c' :: ':' :: n) ∧
    (∀ (t : Store) (n v : List Char) (t' : Store),
      statsd_handle_gauge t n v = some t' →
      ∀ k ∈ t'.map Prod.fst, k ∈ t.map Prod.fst ∨ k = 'g' :: ':' :: n) ∧
    (∀ (t : Store) (n v : List Char) (t' : Store),
      statsd_handle_timer t n v = some t' →
      ∀ k ∈ t'.map Prod.fst, k ∈ t.map Prod.fst ∨ k = 't' :: ':' :: n) ∧
    (∀ (t : Store) (n v : List Char) (t' : Store),
      statsd_handle_set t n v = some t' →
      ∀ k ∈ t'.map Prod.fst, k ∈ t.map Prod.fst ∨ k = 's' :: ':' :: n) ∧
    (∀ n : List Char, lowerEq ('c' :: ':' :: n) ('g' :: ':' :: n) = false) ∧
    (∀ (t : Store) (k k' : List Char), lowerEq k k' = true → avlGet t k = avlGet t k') ∧
    (∀ (t : Store) (k : List Char) (d : Int) (ty : MetricType) (m : Metric),
      avlGet t k = some m →
      (statsd_metric_add t k d ty).map Prod.fst = t.map Prod.fst) ∧
    (∀ (cfg : Config) (t : Store) (n : List Char) (m : Metric) (c : Char),
      ((c :: ':' :: n), m) ∈ t → evict cfg m = false →
      (n, statsd_metric_value m) ∈ (statsd_read cfg t).1) := by
  refine ⟨?_, ?_, ?_, ?_, ?_, avlGet_congr, ?_, ?_⟩
  · intro t n v ex t' h
    unfold statsd_handle_counter at h
    cases hd : counterDelta v ex with
    | none => rw [hd] at h; cases h
    | some d =>
      rw [hd, Option.map_some'] at h
      injection h with h
      rw [← h]
      exact new_key_of_keys_or t _ _ (metric_add_keys t _ d .counter)
  · intro t n v t' h
    unfold statsd_handle_gauge at h
    cases hd : parseDerive v with
    | none => rw [hd] at h; cases h
    | some d =>
      rw [hd, Option.map_some'] at h
      injection h with h
      by_cases hsg : v.head? = some '+' ∨ v.head? = some '-'
      · have h3 : statsd_metric_add t ('g' :: ':' :: n) d .gauge = t' := by
          rw [← h]
          simp only [if_pos hsg]
        rw [← h3]
        exact new_key_of_keys_or t _ _ (metric_add_keys t _ d .gauge)
      · have h3 : statsd_metric_set t ('g' :: ':' :: n) d .gauge = t' := by
          rw [← h]
          simp only [if_neg hsg]
        rw [← h3]
        exact new_key_of_keys_or t _ _ (metric_set_keys t _ d .gauge)
  · intro t n v t' h
    unfold statsd_handle_timer at h
    cases hd : parseDerive v with
    | none => rw [hd] at h; cases h
    | some d =>
      rw [hd, Option.map_some'] at h
      injection h with h
      rw [← h]
      exact new_key_of_keys_or t _ _ (metric_add_keys t _ d .timer)
  · intro t n v t' h
    exact new_key_of_keys_or t t' _ (handle_set_keys t n v t' h)
  · intro n
    simp only [lowerEq, List.map_cons]
    apply beq_eq_false_iff_ne.mpr
    intro h
    injection h with h1 _
    exact absurd h1 (by decide)
  · intro t k d ty m h
    rw [statsd_metric_add_of_some t k d ty m h]
    exact avlUpdate_map_fst t k _
  · intro cfg t n m c hmem hkeep
    induction t with
    | nil => cases hmem
    | cons p rest ih =>
      rw [statsd_read_fst_cons]
      rcases List.mem_cons.mp hmem with rfl | hmem'
      · rw [hkeep]
        simp
      · by_cases he : evict cfg p.2
        · obtain ⟨pk, pm⟩ := p
          rw [if_pos he]
          exact ih hmem'
        · obtain ⟨pk, pm⟩ := p
          rw [if_neg he]
          exact List.mem_cons_of_mem _ (ih hmem')

/-- Witness for C8 (amended): concrete instances — the key created by a
counter sample for name `foo`, counter/gauge key distinctness,
case-insensitive lookup, spelling preservation on update, and prefix
stripping at flush. -/
theorem claim_c8_witness :
    (['c', ':', 'f'] ∈ ([] : Store).map Prod.fst ∨
      ['c', ':', 'f'] = 'c' :: ':' :: ['f']) ∧
    lowerEq ('c' :: ':' :: ['f']) ('g' :: ':' :: ['f']) = false ∧
    avlGet [(['A'], (⟨.gauge, 1, [], 1⟩ : Metric))] ['a'] =
      avlGet [(['A'], (⟨.gauge, 1, [], 1⟩ : Metric))] ['A'] ∧
    (statsd_metric_add [(['G', ':', 'N'], (⟨.gauge, 1, [], 1⟩ : Metric))]
        ['g', ':', 'n'] 2 .gauge).map Prod.fst =
      [(['G', ':', 'N'], (⟨.gauge, 1, [], 1⟩ : Metric))].map Prod.fst ∧
    ((['f'], statsd_metric_value (⟨.counter, 4, [], 1⟩ : Metric)) ∈
      (statsd_read ⟨false, false, false, false⟩
        [(('c' :: ':' :: ['f']), ⟨.counter, 4, [], 1⟩)]).1) := by
  obtain ⟨p1, p2, p3, p4, p5, p6, p7, p8⟩ := claim_c8
  refine ⟨?_, p5 ['f'], p6 _ ['a'] ['A'] (by decide), ?_, ?_⟩
  · refine p1 [] ['f'] ['1'] none [(['c', ':', 'f'], ⟨.counter, 1, [], 1⟩)] ?_
      ['c', ':', 'f'] (by decide)
    simp [statsd_handle_counter, counterDelta, parseDerive, parseDigits, digitsVal,
      ratTrunc, statsd_metric_add, avlGet, statsd_metric_set_nolock]
  · exact p7 _ ['g', ':', 'n'] 2 .gauge ⟨.gauge, 1, [], 1⟩ (by decide)
  · exact p8 ⟨false, false, false, false⟩ _ ['f'] ⟨.counter, 4, [], 1⟩ 'c'
      (by simp) (by decide)

/-- Counterexample to C8 as stated: the key stored for a counter sample
with user name `foo` is `"c:foo"` — the kind tag followed by a colon and
then the name — which is not the one-character tag concatenated directly
with the name (`"cfoo"`). -/
theorem claim_c8_counterexample :
    statsd_handle_counter [] ['f', 'o', 'o'] ['1'] none =
      some [(['c', ':', 'f', 'o', 'o'], ⟨.counter, 1, [], 1⟩)] ∧
    (['c', ':', 'f', 'o', 'o'] : List Char) ≠ 'c' :: ['f', 'o', 'o'] := by
  constructor
  · simp [statsd_handle_counter, counterDelta, parseDerive, parseDigits, digitsVal,
      ratTrunc, statsd_metric_add, avlGet, statsd_metric_set_nolock]
  · decide

end Statsd
